import Mathlib

/-!
Verification development for the 301-Redirect-Maker URL mapper
(`src/url-mapper.js`).  The JavaScript source is shallowly embedded below:
pure functions become Lean functions over `String` / `List Char`, JavaScript
numbers are modelled as exact rationals (`ℚ`), fallible URL parsing becomes
`Option`, and the four output arrays of `processBatch` become lists.

Modelling conventions, stated once here:
* `new URL(u).pathname` is modelled by `urlPathname`: the scheme must be
  non-empty and made of URL scheme characters followed by a literal `://`,
  the host runs to the first `/`, `?` or `#` and must be non-empty, and the
  pathname is taken verbatim from the first `/` up to `?` or `#` (WHATWG
  percent-encoding, dot-segment removal, backslash folding and host
  validation are outside the model).  A URL that does not start with
  `http` is resolved against the placeholder host `https://example.com`
  exactly as the source does.
* JavaScript string case folding is modelled on ASCII (`Char.toLower`).
* JavaScript objects used as dictionaries (`skuIndex`, `newProductIndex`)
  are modelled as insertion-ordered association lists; the exotic ordering
  of integer-like keys and prototype-chain lookups are outside the model.
* `Array.prototype.sort` with comparator `(a, b) => b.similarity - a.similarity`
  is a stable descending sort (ES2019 requires stability); it is modelled by
  a stable insertion sort `sortBySimDesc`.
-/

namespace UrlMapper

/-! ## Generic string helpers (List Char based, so everything reduces) -/

/-- JavaScript `hay.includes(needle)`: `needle` occurs as a contiguous
substring of `hay`. -/
def listContainsSeq (needle : List Char) : List Char → Bool
  | [] => needle.isEmpty
  | c :: rest => needle.isPrefixOf (c :: rest) || listContainsSeq needle rest

/-- JavaScript `hay.includes(needle)` on strings. -/
def containsSubstr (hay needle : String) : Bool :=
  listContainsSeq needle.data hay.data

/-- JavaScript `s.startsWith(pre)`. -/
def startsWithStr (pre s : String) : Bool :=
  pre.data.isPrefixOf s.data

/-- ASCII lower-casing, modelling JavaScript `toLowerCase` on the ASCII
strings this program handles. -/
def toLowerCase (s : String) : String :=
  ⟨s.data.map Char.toLower⟩

/-- JavaScript `s.split(sep)` for a single-character separator: `n`
separators yield `n + 1` (possibly empty) pieces. -/
def splitOnSep (sep : Char) : List Char → List (List Char)
  | [] => [[]]
  | c :: rest =>
    let r := splitOnSep sep rest
    if c = sep then [] :: r
    else match r with
      | [] => [[c]]
      | h :: t => (c :: h) :: t

/-- String wrapper for `splitOnSep`. -/
def splitChar (sep : Char) (s : String) : List String :=
  (splitOnSep sep s.data).map String.mk

/-- Split `hay` at the first occurrence of `needle`, returning the parts
before and after it. -/
def splitOnFirst (needle : List Char) : List Char → Option (List Char × List Char)
  | [] => if needle.isEmpty then some ([], []) else none
  | c :: rest =>
    if needle.isPrefixOf (c :: rest) then some ([], (c :: rest).drop needle.length)
    else (splitOnFirst needle rest).map (fun p => (c :: p.1, p.2))

/-- First index of `x` in a list of strings (JavaScript `indexOf`, with
`none` for `-1`). -/
def indexOfStr (x : String) : List String → Option Nat
  | [] => none
  | s :: rest => if s = x then some 0 else (indexOfStr x rest).map (· + 1)

/-- Association-list lookup modelling JavaScript plain-object property
access (`obj[key]`, `undefined` becoming `none`). -/
def lookupBy {α : Type} : List (String × α) → String → Option α
  | [], _ => none
  | (k, v) :: rest, key => if k = key then some v else lookupBy rest key

/-! ## URL pathname model -/

/-- Characters allowed in a URL scheme. -/
def schemeCharOk (c : Char) : Bool :=
  c.isAlphanum || c == '+' || c == '-' || c == '.'

/-- Model of `new URL(fullUrl).pathname` for an absolute URL (see the
module docstring for the exact scope of the model).  `none` models the
`TypeError` thrown by the URL constructor. -/
def absUrlPathname (fullUrl : String) : Option String :=
  match splitOnFirst "://".data fullUrl.data with
  | none => none
  | some (scheme, rest) =>
    if scheme.isEmpty then none
    else if !scheme.all schemeCharOk then none
    else
      let host := rest.takeWhile (fun c => !(c == '/' || c == '?' || c == '#'))
      if host.isEmpty then none
      else
        let after := rest.drop host.length
        match after with
        | '/' :: _ => some ⟨after.takeWhile (fun c => !(c == '?' || c == '#'))⟩
        | _ => some "/"

/-- The pathname of an old/new-site URL as every function of the source
computes it: URLs lacking a scheme are resolved against the placeholder
host `https://example.com` first. -/
def urlPathname (url : String) : Option String :=
  absUrlPathname (if startsWithStr "http" url then url else "https://example.com" ++ url)

/-- The non-empty path segments, as `path.split('/').filter(s => s)`. -/
def pathSegments (path : String) : List String :=
  (splitChar '/' path).filter (fun s => s ≠ "")

/-! ## Name Extractor (`extractProductName`, `cleanProductName`) -/

/-- Greedy match of `-\d+x\d+` at the head of the list, returning the
matched length. -/
def matchDim2At (l : List Char) : Option Nat :=
  match l with
  | '-' :: rest =>
    let d1 := rest.takeWhile Char.isDigit
    if d1.isEmpty then none
    else match rest.drop d1.length with
      | 'x' :: rest2 =>
        let d2 := rest2.takeWhile Char.isDigit
        if d2.isEmpty then none else some (1 + d1.length + 1 + d2.length)
      | _ => none
  | _ => none

/-- Greedy match of `-\d+x\d+x\d+` at the head of the list. -/
def matchDim3At (l : List Char) : Option Nat :=
  match l with
  | '-' :: rest =>
    let d1 := rest.takeWhile Char.isDigit
    if d1.isEmpty then none
    else match rest.drop d1.length with
      | 'x' :: rest2 =>
        let d2 := rest2.takeWhile Char.isDigit
        if d2.isEmpty then none
        else match rest2.drop d2.length with
          | 'x' :: rest3 =>
            let d3 := rest3.takeWhile Char.isDigit
            if d3.isEmpty then none
            else some (1 + d1.length + 1 + d2.length + 1 + d3.length)
          | _ => none
      | _ => none
  | _ => none

/-- Greedy match of `-\d+-?UNIT` at the head of the list (the regexes
`-\d+-?mil` … `-\d+-?gal`; the digits are mandatory, the second hyphen
optional). -/
def matchUnitAt (unit : List Char) (l : List Char) : Option Nat :=
  match l with
  | '-' :: rest =>
    let d := rest.takeWhile Char.isDigit
    if d.isEmpty then none
    else
      let rest2 := rest.drop d.length
      match rest2 with
      | '-' :: rest3 =>
        if unit.isPrefixOf rest3 then some (1 + d.length + 1 + unit.length)
        else if unit.isPrefixOf rest2 then some (1 + d.length + unit.length)
        else none
      | _ => if unit.isPrefixOf rest2 then some (1 + d.length + unit.length) else none
  | _ => none

/-- JavaScript `s.replace(re, '')` for a non-global regex: delete the
leftmost match of the matcher `m`, or leave the list unchanged when there
is no match. -/
def replaceFirst (m : List Char → Option Nat) : List Char → List Char
  | [] => []
  | c :: rest =>
    match m (c :: rest) with
    | some n => (c :: rest).drop n
    | none => c :: replaceFirst m rest

/-- The replace of regex "-[0-9]$" by the empty string: drop a trailing
hyphen-plus-single-digit. -/
def dropTrailingLoneDigit (l : List Char) : List Char :=
  match l.reverse with
  | d :: '-' :: rest => if d.isDigit then rest.reverse else l
  | _ => l

/-- The replace of regex "-+$" by the empty string: drop all trailing
hyphens. -/
def dropTrailingHyphens (l : List Char) : List Char :=
  (l.reverse.dropWhile (fun c => c == '-')).reverse

/-- Source `cleanProductName`: strips a trailing lone digit, then
the first occurrence (anywhere) of a 3-dimension spec, a 2-dimension spec,
and each numbered unit suffix, then trailing hyphens. -/
def cleanProductName (name : String) : String :=
  if name = "" then ""
  else
    let l := dropTrailingLoneDigit name.data
    let l := replaceFirst matchDim3At l
    let l := replaceFirst matchDim2At l
    let l := replaceFirst (matchUnitAt "mil".data) l
    let l := replaceFirst (matchUnitAt "inch".data) l
    let l := replaceFirst (matchUnitAt "oz".data) l
    let l := replaceFirst (matchUnitAt "lb".data) l
    let l := replaceFirst (matchUnitAt "gal".data) l
    String.mk (dropTrailingHyphens l)

/-- JavaScript `pattern.replace(/\//g, '')`: remove every slash of a URL pattern. -/
def removeSlashes (s : String) : String :=
  ⟨s.data.filter (fun c => !(c == '/'))⟩

/-! ## Configuration -/

/-- The recognized configuration options consumed by the matching engine
(the `CONFIG` object of the source, I/O and debug fields omitted as they
never reach the engine). -/
structure Config where
  newSiteBaseUrl : String
  similarityThreshold : ℚ
  highConfidenceThreshold : ℚ
  mediumConfidenceThreshold : ℚ
  productUrlPatterns : List String
  categoryUrlPatterns : List String
  categoryMappings : List (String × String)
  batchSize : Nat
  deriving DecidableEq

/-- The concrete `CONFIG` values of the source. -/
def CONFIG : Config :=
  { newSiteBaseUrl := "https://example.com"
    similarityThreshold := mkRat 1 2
    highConfidenceThreshold := mkRat 4 5
    mediumConfidenceThreshold := mkRat 3 5
    productUrlPatterns := ["/product/", "/shop/"]
    categoryUrlPatterns := ["/product-category/", "/category/", "/shop/"]
    categoryMappings := []
    batchSize := 250 }

/-- The segment selection of `extractProductName`: the last non-empty
segment by default; the first configured product pattern occurring as a
substring of the path selects instead the segment after the pattern's
slash-stripped marker segment, when that marker occurs and is not final. -/
def selectProductSegment (cfg : Config) (path : String) : String :=
  let segments := pathSegments path
  let dflt := (segments.getLast?).getD ""
  match cfg.productUrlPatterns.find? (fun pat => containsSubstr path pat) with
  | none => dflt
  | some pat =>
    match indexOfStr (removeSlashes pat) segments with
    | some idx => if idx < segments.length - 1 then segments.getD (idx + 1) "" else dflt
    | none => dflt

/-- Source `extractProductName`: parse the pathname, select the
product segment, normalize it.  Any parse failure yields the empty
string. -/
def extractProductName (cfg : Config) (url : String) : String :=
  match urlPathname url with
  | none => ""
  | some path => cleanProductName (selectProductSegment cfg path)

/-! ## Similarity Scorer (`calculateNameSimilarity`) -/

/-- Source `calculateNameSimilarity`, with JavaScript numbers
modelled as exact rationals.  The fractions are written with `mkRat`,
which builds the same rational as `9 / 10` and
`(inter.length : ℚ) / (union.length : ℚ)` (see
`calculateNameSimilarity_eq`) while staying kernel-computable. -/
def calculateNameSimilarity (name1 name2 : String) : ℚ :=
  if name1 = "" ∨ name2 = "" then 0
  else
    let n1 := toLowerCase name1
    let n2 := toLowerCase name2
    if n1 = n2 then 1
    else if containsSubstr n1 n2 then mkRat 9 10
    else if containsSubstr n2 n1 then mkRat 9 10
    else
      let words1 := (splitChar '-' n1).dedup
      let words2 := (splitChar '-' n2).dedup
      let inter := words1.filter (fun w => w ∈ words2)
      let union := (words1 ++ words2).dedup
      mkRat inter.length union.length

/-! ## Loop Detector (`areUrlsEffectivelySame`) -/

/-- JavaScript `s.replace(/\/+$/, '')`: strip all trailing slashes. -/
def stripTrailingSlashes (s : String) : String :=
  ⟨(s.data.reverse.dropWhile (fun c => c == '/')).reverse⟩

/-- The inner `normalizeUrl` closure of `areUrlsEffectivelySame`: resolve
against the placeholder host, take the pathname only, strip trailing
slashes, lower-case.  `none` models the caught URL-parsing exception. -/
def normalizeUrl (url : String) : Option String :=
  (urlPathname url).map (fun p => toLowerCase (stripTrailingSlashes p))

/-- Source `areUrlsEffectivelySame`; a parse failure of either
URL is caught and yields `false`. -/
def areUrlsEffectivelySame (oldUrl newUrl : String) : Bool :=
  match normalizeUrl oldUrl, normalizeUrl newUrl with
  | some oldPath, some newPath =>
    oldPath == newPath || oldPath ++ "/" == newPath || oldPath == newPath ++ "/"
  | _, _ => false

/-! ## Data model -/

/-- One parsed input row (`{ sku, url }` as produced by `fetchCSV`); an
absent identifier is the empty string. -/
structure Record where
  sku : String
  url : String
  deriving DecidableEq

/-- A row of the `mapping` output array.  The `sku` field is present only
for identifier matches, as in the source objects. -/
structure MatchResult where
  oldURL : String
  newURL : String
  oldName : String
  newName : String
  matchType : String
  similarity : String
  sku : Option String
  deriving DecidableEq

/-- A row of the `categoryMappings` output array: either a resolved
category redirect or an unresolved observation. -/
inductive CategoryEntry
  | resolved (oldURL newURL matchType similarity : String)
  | unresolved (oldURL category : String)
  deriving DecidableEq

/-- A row of the `loopDetected` output array. -/
structure LoopEntry where
  oldURL : String
  newURL : String
  reason : String
  oldName : Option String
  newName : Option String
  sku : Option String
  deriving DecidableEq

/-- The four output arrays of `processBatch`. -/
structure BatchResult where
  mapping : List MatchResult
  unmapped : List String
  categoryMappings : List CategoryEntry
  loopDetected : List LoopEntry
  deriving DecidableEq

/-- What a single loop iteration of `processBatch` contributes: each old
record either pushes exactly one row onto exactly one of the four arrays,
or pushes nothing (`dropped`). -/
inductive Disposition
  | mapped (m : MatchResult)
  | unmapped (u : String)
  | categorized (c : CategoryEntry)
  | loop (l : LoopEntry)
  | dropped
  deriving DecidableEq

/-- The new-site name index: extracted name, in first-seen order, mapped to
the records bearing it in input order. -/
abbrev NameIndex := List (String × List Record)

/-- The new-site identifier index: identifier mapped to a single record. -/
abbrev SkuIndex := List (String × Record)

/-- JavaScript `Number.prototype.toFixed(2)` on the exact rational model:
round to the nearest hundredth (`⌊q * 100 + 1/2⌋`, computed on numerator
and denominator so it stays kernel-computable — see `toFixed2_floor`),
and print with two decimals. -/
def toFixed2 (q : ℚ) : String :=
  let n : Int := (q.num * 200 + q.den) / (2 * (q.den : Int))
  let whole := n / 100
  let frac := (n % 100).toNat
  toString whole ++ "." ++ (if frac < 10 then "0" ++ toString frac else toString frac)


/-! ## Matching Engine (`processBatch`) -/

/-- Stable insertion of a scored candidate list into a descending-sorted
list: it lands after every earlier entry with an equal or higher score. -/
def insertSimDesc (x : ℚ × List Record) : List (ℚ × List Record) → List (ℚ × List Record)
  | [] => [x]
  | y :: ys => if x.1 ≥ y.1 then x :: y :: ys else y :: insertSimDesc x ys

/-- JavaScript `similarities.sort((a, b) => b.similarity - a.similarity)`: a stable
descending sort by score. -/
def sortBySimDesc (l : List (ℚ × List Record)) : List (ℚ × List Record) :=
  l.foldr insertSimDesc []

/-- The similarity pass of the name branch: score the old name against
every key of the index in iteration order and keep the entries strictly
above the configured threshold. -/
def scoredCandidates (cfg : Config) (newProductIndex : NameIndex) (productName : String) :
    List (ℚ × List Record) :=
  newProductIndex.filterMap (fun kv =>
    let similarity := calculateNameSimilarity productName kv.1
    if similarity > cfg.similarityThreshold then some (similarity, kv.2) else none)

/-- The fuzzy fallback of the name branch: sort the surviving scored
entries descending and take the top candidate list, or none at all. -/
def fuzzyMatches (cfg : Config) (newProductIndex : NameIndex) (productName : String) :
    List Record :=
  match sortBySimDesc (scoredCandidates cfg newProductIndex productName) with
  | [] => []
  | top :: _ => top.2

/-- The confidence classification of the name branch. -/
def classifySimilarity (cfg : Config) (similarity : ℚ) : String :=
  if similarity = 1 then "exact_match"
  else if similarity ≥ cfg.highConfidenceThreshold then "high_confidence_match"
  else if similarity ≥ cfg.mediumConfidenceThreshold then "medium_confidence_match"
  else "low_confidence_match"

/-- The category arm of the `processBatch` loop body (the `isCategory`
block of the source): resolve the first segment with a configured category
mapping, loop-check the resolved URL, and fall back to an unresolved
observation; a caught URL-parse failure pushes nothing. -/
def categoryBranch (cfg : Config) (url : String) : Disposition :=
  match urlPathname url with
  | none => .dropped
  | some path =>
    let segments := pathSegments path
    match segments.find? (fun seg =>
        cfg.categoryMappings.any (fun kv => seg == kv.1)) with
    | some categorySlug =>
      match lookupBy cfg.categoryMappings categorySlug with
      | some mappedPath =>
        if mappedPath = "" then
          .categorized (.unresolved url (String.intercalate "/" segments))
        else
          let newCategoryUrl := cfg.newSiteBaseUrl ++ mappedPath
          if areUrlsEffectivelySame url newCategoryUrl then
            .loop ⟨url, newCategoryUrl, "identical_category", none, none, none⟩
          else
            .categorized (.resolved url newCategoryUrl "category_redirect" "1.00")
      | none => .categorized (.unresolved url (String.intercalate "/" segments))
    | none => .categorized (.unresolved url (String.intercalate "/" segments))

/-- The name-based product arm of the `processBatch` loop body: exact name
index hit, else the fuzzy pass, first record of the chosen list,
loop-check, then classification by the recomputed similarity. -/
def nameBranch (cfg : Config) (newProductIndex : NameIndex) (url : String) : Disposition :=
  let productName := extractProductName cfg url
  if productName = "" then .unmapped url
  else
    let exact := (lookupBy newProductIndex productName).getD []
    let bestMatches :=
      if exact.isEmpty then fuzzyMatches cfg newProductIndex productName else exact
    match bestMatches with
    | [] => .unmapped url
    | bestMatch :: _ =>
      if areUrlsEffectivelySame url bestMatch.url then
        .loop ⟨url, bestMatch.url, "identical_product", some productName,
          some (extractProductName cfg bestMatch.url), none⟩
      else
        let similarity :=
          calculateNameSimilarity productName (extractProductName cfg bestMatch.url)
        .mapped ⟨url, bestMatch.url, productName,
          extractProductName cfg bestMatch.url, classifySimilarity cfg similarity,
          toFixed2 similarity, none⟩

/-- One iteration of the `processBatch` loop, following the source's
control flow branch by branch (each `continue` becomes a `Disposition`). -/
def processRecord (cfg : Config) (newProductIndex : NameIndex) (skuIndex : SkuIndex)
    (oldProduct : Record) : Disposition :=
  match (if oldProduct.sku = "" then none else lookupBy skuIndex oldProduct.sku) with
  | some newProduct =>
    if areUrlsEffectivelySame oldProduct.url newProduct.url then
      .loop ⟨oldProduct.url, newProduct.url, "identical_urls", none, none, some oldProduct.sku⟩
    else
      .mapped ⟨oldProduct.url, newProduct.url, extractProductName cfg oldProduct.url,
        extractProductName cfg newProduct.url, "sku_match", "1.00", some oldProduct.sku⟩
  | none =>
    let isProduct := cfg.productUrlPatterns.any (fun pat => containsSubstr oldProduct.url pat)
    let isCategory := cfg.categoryUrlPatterns.any (fun pat => containsSubstr oldProduct.url pat)
    if !isProduct then
      if isCategory then categoryBranch cfg oldProduct.url
      else .dropped
    else nameBranch cfg newProductIndex oldProduct.url

/-- Push a disposition onto the accumulated output arrays. -/
def pushDisposition (acc : BatchResult) : Disposition → BatchResult
  | .mapped m => { acc with mapping := acc.mapping ++ [m] }
  | .unmapped u => { acc with unmapped := acc.unmapped ++ [u] }
  | .categorized c => { acc with categoryMappings := acc.categoryMappings ++ [c] }
  | .loop l => { acc with loopDetected := acc.loopDetected ++ [l] }
  | .dropped => acc

/-- The empty output state. -/
def emptyBatch : BatchResult := ⟨[], [], [], []⟩

/-- Concatenate two output states arraywise. -/
def appendBatch (a b : BatchResult) : BatchResult :=
  ⟨a.mapping ++ b.mapping, a.unmapped ++ b.unmapped,
    a.categoryMappings ++ b.categoryMappings, a.loopDetected ++ b.loopDetected⟩

/-- Source `processBatch`: fold the per-record loop body over the
old records. -/
def processBatch (cfg : Config) (oldProducts : List Record)
    (newProductIndex : NameIndex) (skuIndex : SkuIndex) : BatchResult :=
  oldProducts.foldl
    (fun acc p => pushDisposition acc (processRecord cfg newProductIndex skuIndex p))
    emptyBatch

/-! ## Index Builder and Batch Coordinator (`generateURLMapping`) -/

/-- Insert into the identifier index with last-writer-wins on duplicate
keys, keeping the original key position as a JavaScript object does. -/
def upsertSku : SkuIndex → String → Record → SkuIndex
  | [], k, e => [(k, e)]
  | (k', e') :: rest, k, e =>
    if k' = k then (k', e) :: rest else (k', e') :: upsertSku rest k e

/-- The `skuIndex` construction of `generateURLMapping`: every record with
a non-empty identifier, last writer winning. -/
def buildSkuIndex (newURLs : List Record) : SkuIndex :=
  newURLs.foldl (fun idx e => if e.sku = "" then idx else upsertSku idx e.sku e) []

/-- Append a record under a name key, creating the key at the end on first
sight (JavaScript object insertion order). -/
def insertName : NameIndex → String → Record → NameIndex
  | [], k, e => [(k, [e])]
  | (k', es) :: rest, k, e =>
    if k' = k then (k', es ++ [e]) :: rest else (k', es) :: insertName rest k e

/-- The `newProductIndex` construction of `generateURLMapping`: records are
indexed by extracted name, skipping empty names. -/
def buildNameIndex (cfg : Config) (newURLs : List Record) : NameIndex :=
  newURLs.foldl (fun idx e =>
    let productName := extractProductName cfg e.url
    if productName = "" then idx else insertName idx productName e) []

/-- Contiguous chunks of size `b` (the `slice` loop of the batch
coordinator), with the list length as structural fuel. -/
def chunkListAux (b : Nat) : Nat → List Record → List (List Record)
  | _, [] => []
  | 0, p :: t => [p :: t]
  | fuel + 1, p :: t => (p :: t).take b :: chunkListAux b fuel ((p :: t).drop b)

/-- The batch partition of the old-record list. -/
def chunkList (b : Nat) (l : List Record) : List (List Record) :=
  chunkListAux b l.length l

/-- Run `processBatch` per chunk and concatenate the four output arrays in
chunk order. -/
def batchedProcess (cfg : Config) (b : Nat) (oldURLs : List Record)
    (newProductIndex : NameIndex) (skuIndex : SkuIndex) : BatchResult :=
  (chunkList b oldURLs).foldl
    (fun acc chunk => appendBatch acc (processBatch cfg chunk newProductIndex skuIndex))
    emptyBatch

/-- The core of `generateURLMapping` (file I/O and reporting stripped):
build both indices from the new-site records, then process the old records
in batches of the configured size. -/
def generateURLMapping (cfg : Config) (oldURLs newURLs : List Record) : BatchResult :=
  let skuIndex := buildSkuIndex newURLs
  let newProductIndex := buildNameIndex cfg newURLs
  batchedProcess cfg cfg.batchSize oldURLs newProductIndex skuIndex

/-! ## Specification-side definitions used to state the claims -/

/-- The Jaccard index over the hyphen-split word sets of two names, stated
with genuine finite sets, as the specification words it. -/
def jaccardWords (n1 n2 : String) : ℚ :=
  let s1 := (splitChar '-' n1).toFinset
  let s2 := (splitChar '-' n2).toFinset
  ((s1 ∩ s2).card : ℚ) / ((s1 ∪ s2).card : ℚ)

/-- The selection rule the specification describes for ties: the first
entry of the scored list achieving the maximal score. -/
def firstMaxBySim : List (ℚ × List Record) → Option (ℚ × List Record)
  | [] => none
  | x :: xs =>
    match firstMaxBySim xs with
    | none => some x
    | some y => if x.1 ≥ y.1 then some x else some y

/-- The `mapping` contribution of a disposition. -/
def dispMapped : Disposition → Option MatchResult
  | .mapped m => some m
  | _ => none

/-- The `unmapped` contribution of a disposition. -/
def dispUnmapped : Disposition → Option String
  | .unmapped u => some u
  | _ => none

/-- The `categoryMappings` contribution of a disposition. -/
def dispCategorized : Disposition → Option CategoryEntry
  | .categorized c => some c
  | _ => none

/-- The `loopDetected` contribution of a disposition. -/
def dispLoop : Disposition → Option LoopEntry
  | .loop l => some l
  | _ => none

/-- The classification the specification asserts: the URL's parsed PATH
contains a configured product marker. -/
def pathContainsProductPattern (cfg : Config) (url : String) : Bool :=
  match urlPathname url with
  | none => false
  | some path => cfg.productUrlPatterns.any (fun pat => containsSubstr path pat)

/-- The classification the specification asserts for category URLs, over
the parsed path. -/
def pathContainsCategoryPattern (cfg : Config) (url : String) : Bool :=
  match urlPathname url with
  | none => false
  | some path => cfg.categoryUrlPatterns.any (fun pat => containsSubstr path pat)

/-- The amended normalization rule, formalized independently of
`replaceFirst`: scan positions left to right, delete the leftmost span the
matcher accepts anywhere in the list, keeping the prefix before it and the
tail after it. -/
def removeFirstMatch (m : List Char → Option Nat) (l : List Char) : List Char :=
  match (List.range l.length).find? (fun i => (m (l.drop i)).isSome) with
  | none => l
  | some i => l.take i ++ (l.drop i).drop ((m (l.drop i)).getD 0)

/-- The suffix-only normalization the specification describes: a pattern
is removed only when its match ends exactly at the end of the name. -/
def dropMatchedSuffix (m : List Char → Option Nat) (l : List Char) : List Char :=
  match (List.range l.length).find? (fun i => m (l.drop i) == some (l.length - i)) with
  | none => l
  | some i => l.take i

/-- The unit suffix as the specification words it: the unit, `optionally`
preceded by a number (so bare `-mil` also counts), the whole group sitting
at the position handed to `dropMatchedSuffix`. -/
def specUnitSuffixAt (unit : List Char) (l : List Char) : Option Nat :=
  match l with
  | '-' :: rest =>
    if rest == unit then some (1 + unit.length)
    else
      let d := rest.takeWhile Char.isDigit
      if d.isEmpty then none
      else
        let rest2 := rest.drop d.length
        if rest2 == unit then some (1 + d.length + unit.length)
        else
          match rest2 with
          | '-' :: rest3 =>
            if rest3 == unit then some (1 + d.length + 1 + unit.length) else none
          | _ => none
  | _ => none

/-- Name normalization exactly as the specification words claim C7:
suffix-only stripping, with the number before a unit optional. -/
def specCleanProductName (name : String) : String :=
  if name = "" then ""
  else
    let l := dropTrailingLoneDigit name.data
    let l := dropMatchedSuffix matchDim3At l
    let l := dropMatchedSuffix matchDim2At l
    let l := dropMatchedSuffix (specUnitSuffixAt "mil".data) l
    let l := dropMatchedSuffix (specUnitSuffixAt "inch".data) l
    let l := dropMatchedSuffix (specUnitSuffixAt "oz".data) l
    let l := dropMatchedSuffix (specUnitSuffixAt "lb".data) l
    let l := dropMatchedSuffix (specUnitSuffixAt "gal".data) l
    String.mk (dropTrailingHyphens l)

/-- The amended normalization, formalized through the scan
`specAmendedClean`: first occurrence anywhere, number before a unit
mandatory. -/
def specAmendedClean (name : String) : String :=
  if name = "" then ""
  else
    let l := dropTrailingLoneDigit name.data
    let l := removeFirstMatch matchDim3At l
    let l := removeFirstMatch matchDim2At l
    let l := removeFirstMatch (matchUnitAt "mil".data) l
    let l := removeFirstMatch (matchUnitAt "inch".data) l
    let l := removeFirstMatch (matchUnitAt "oz".data) l
    let l := removeFirstMatch (matchUnitAt "lb".data) l
    let l := removeFirstMatch (matchUnitAt "gal".data) l
    String.mk (dropTrailingHyphens l)

/-! ## Lemmas about the Similarity Scorer -/

/-- The rounding step of `toFixed2` is the claimed half-up rounding of
`q * 100`. -/
theorem toFixed2_floor (q : ℚ) :
    (q.num * 200 + q.den) / (2 * (q.den : Int)) = ⌊q * 100 + 1/2⌋ := by
  have hd : ((q.den : ℕ) : ℚ) ≠ 0 := Nat.cast_ne_zero.mpr q.den_ne_zero
  have h : q * 100 + 1/2
      = ((q.num * 200 + q.den : ℤ) : ℚ) / ((2 * q.den : ℕ) : ℚ) := by
    conv_lhs => rw [← Rat.num_div_den q]
    push_cast
    field_simp
    ring
  rw [h, Rat.floor_intCast_div_natCast]
  push_cast
  rfl


theorem dedup_filter_mem_length {α : Type} [DecidableEq α] (u v : List α) :
    ((u.dedup.filter (fun w => w ∈ v.dedup)).length : ℚ)
      = ((u.toFinset ∩ v.toFinset).card : ℚ) := by
  have hnd : (u.dedup.filter (fun w => w ∈ v.dedup)).Nodup :=
    (List.nodup_dedup u).filter _
  have hts : (u.dedup.filter (fun w => w ∈ v.dedup)).toFinset
      = u.toFinset ∩ v.toFinset := by
    ext x
    simp [List.mem_filter, List.mem_dedup, List.mem_toFinset]
  have := List.toFinset_card_of_nodup hnd
  rw [hts] at this
  exact_mod_cast this.symm

theorem dedup_append_dedup_length {α : Type} [DecidableEq α] (u v : List α) :
    (((u.dedup ++ v.dedup).dedup).length : ℚ)
      = ((u.toFinset ∪ v.toFinset).card : ℚ) := by
  have hnd : ((u.dedup ++ v.dedup).dedup).Nodup := List.nodup_dedup _
  have hts : ((u.dedup ++ v.dedup).dedup).toFinset = u.toFinset ∪ v.toFinset := by
    ext x
    simp [List.mem_dedup, List.mem_toFinset, List.mem_append]
  have := List.toFinset_card_of_nodup hnd
  rw [hts] at this
  exact_mod_cast this.symm

/-- In the word-set branch, the source's deduplicated intersection-over-
union count is exactly the Jaccard index over word sets. -/
theorem jaccard_branch_eq (n1 n2 : String) :
    (mkRat ((splitChar '-' n1).dedup.filter
        (fun w => w ∈ (splitChar '-' n2).dedup)).length
        ((((splitChar '-' n1).dedup ++ (splitChar '-' n2).dedup).dedup).length) : ℚ)
      = jaccardWords n1 n2 := by
  rw [Rat.mkRat_eq_div]
  push_cast
  rw [jaccardWords, dedup_filter_mem_length, dedup_append_dedup_length]

/-- The substring score as the source's fraction. -/
theorem mkRat_nine_tenths : (mkRat 9 10 : ℚ) = 9/10 := by
  rw [Rat.mkRat_eq_div]
  norm_num

theorem jaccardWords_nonneg (n1 n2 : String) : 0 ≤ jaccardWords n1 n2 := by
  rw [jaccardWords]
  positivity

theorem jaccardWords_le_one (n1 n2 : String) : jaccardWords n1 n2 ≤ 1 := by
  rw [jaccardWords]
  set s1 := (splitChar '-' n1).toFinset
  set s2 := (splitChar '-' n2).toFinset
  rcases Nat.eq_zero_or_pos (s1 ∪ s2).card with h | h
  · rw [h]
    norm_num
  · apply div_le_one_of_le₀
    · exact_mod_cast Finset.card_le_card Finset.inter_subset_union
    · exact_mod_cast Nat.le_of_lt h

theorem jaccardWords_comm (n1 n2 : String) : jaccardWords n1 n2 = jaccardWords n2 n1 := by
  rw [jaccardWords, jaccardWords, Finset.inter_comm, Finset.union_comm]

/-- Case-split form of `calculateNameSimilarity` with the Jaccard branch
expressed through `jaccardWords`. -/
theorem calculateNameSimilarity_eq (name1 name2 : String) :
    calculateNameSimilarity name1 name2 =
      if name1 = "" ∨ name2 = "" then 0
      else if toLowerCase name1 = toLowerCase name2 then 1
      else if containsSubstr (toLowerCase name1) (toLowerCase name2) then 9/10
      else if containsSubstr (toLowerCase name2) (toLowerCase name1) then 9/10
      else jaccardWords (toLowerCase name1) (toLowerCase name2) := by
  rw [calculateNameSimilarity]
  split
  · rfl
  · rw [← mkRat_nine_tenths, ← jaccard_branch_eq]

theorem calculateNameSimilarity_nonneg (a b : String) :
    0 ≤ calculateNameSimilarity a b := by
  rw [calculateNameSimilarity_eq]
  split
  · exact le_refl 0
  split
  · exact zero_le_one
  split
  · norm_num
  split
  · norm_num
  · exact jaccardWords_nonneg _ _

theorem calculateNameSimilarity_le_one (a b : String) :
    calculateNameSimilarity a b ≤ 1 := by
  rw [calculateNameSimilarity_eq]
  split
  · exact zero_le_one
  split
  · exact le_refl 1
  split
  · norm_num
  split
  · norm_num
  · exact jaccardWords_le_one _ _

theorem calculateNameSimilarity_comm (a b : String) :
    calculateNameSimilarity a b = calculateNameSimilarity b a := by
  rw [calculateNameSimilarity_eq, calculateNameSimilarity_eq]
  by_cases h1 : a = "" ∨ b = ""
  · rw [if_pos h1, if_pos (Or.symm h1)]
  · rw [if_neg h1, if_neg (fun h => h1 (Or.symm h))]
    by_cases he : toLowerCase a = toLowerCase b
    · rw [if_pos he, if_pos he.symm]
    · rw [if_neg he, if_neg (fun h : toLowerCase b = toLowerCase a => he h.symm)]
      by_cases hab : containsSubstr (toLowerCase a) (toLowerCase b) = true <;>
        by_cases hba : containsSubstr (toLowerCase b) (toLowerCase a) = true
      · rw [if_pos hab, if_pos hba]
      · rw [if_pos hab, if_neg hba, if_pos hab]
      · rw [if_neg hab, if_pos hba, if_pos hba]
      · rw [if_neg hab, if_neg hba, if_neg hba, if_neg hab, jaccardWords_comm]

theorem calculateNameSimilarity_self (a : String) (h : a ≠ "") :
    calculateNameSimilarity a a = 1 := by
  rw [calculateNameSimilarity_eq]
  rw [if_neg (by simp [h]), if_pos rfl]

/-- Claim C3: `calculateNameSimilarity` follows the priority order
(case-insensitively identical names score 1.0, substring containment in
either direction scores 0.9, otherwise the Jaccard index of the
hyphen-split word sets), scores 0 when either name is empty, always stays
within [0, 1], scores 1 on a non-empty name against itself, and is
symmetric. -/
theorem claim3_similarity_contract (a b : String) :
    (0 ≤ calculateNameSimilarity a b ∧ calculateNameSimilarity a b ≤ 1) ∧
    (a = "" ∨ b = "" → calculateNameSimilarity a b = 0) ∧
    (a ≠ "" → calculateNameSimilarity a a = 1) ∧
    calculateNameSimilarity a b = calculateNameSimilarity b a ∧
    (a ≠ "" → b ≠ "" →
      (toLowerCase a = toLowerCase b → calculateNameSimilarity a b = 1) ∧
      (toLowerCase a ≠ toLowerCase b →
        (containsSubstr (toLowerCase a) (toLowerCase b) = true ∨
          containsSubstr (toLowerCase b) (toLowerCase a) = true) →
        calculateNameSimilarity a b = 9/10) ∧
      (toLowerCase a ≠ toLowerCase b →
        containsSubstr (toLowerCase a) (toLowerCase b) = false →
        containsSubstr (toLowerCase b) (toLowerCase a) = false →
        calculateNameSimilarity a b =
          jaccardWords (toLowerCase a) (toLowerCase b))) := by
  refine ⟨⟨calculateNameSimilarity_nonneg a b, calculateNameSimilarity_le_one a b⟩,
    ?_, fun h => calculateNameSimilarity_self a h, calculateNameSimilarity_comm a b,
    fun ha hb => ⟨?_, ?_, ?_⟩⟩
  · intro h
    rw [calculateNameSimilarity_eq, if_pos h]
  · intro he
    rw [calculateNameSimilarity_eq, if_neg (by simp [ha, hb]), if_pos he]
  · intro he hsub
    rw [calculateNameSimilarity_eq, if_neg (by simp [ha, hb]), if_neg he]
    rcases hsub with h | h
    · rw [if_pos h]
    · by_cases h2 : containsSubstr (toLowerCase a) (toLowerCase b) = true
      · rw [if_pos h2]
      · rw [if_neg h2, if_pos h]
  · intro he hab hba
    rw [calculateNameSimilarity_eq, if_neg (by simp [ha, hb]), if_neg he,
      if_neg (by simp [hab]), if_neg (by simp [hba])]

/-- Witness for C3 at concrete names: the claim instantiated at
`"steel-box"` and `"steel-box-red"`, whose score is the substring case. -/
theorem claim3_similarity_contract_witness :
    calculateNameSimilarity "steel-box" "steel-box" = 1 ∧
    calculateNameSimilarity "steel-box" "steel-box-red" = 9/10 :=
  ⟨(claim3_similarity_contract "steel-box" "steel-box-red").2.2.1 (by decide),
    ((claim3_similarity_contract "steel-box" "steel-box-red").2.2.2.2 (by decide)
      (by decide)).2.1 (by decide) (Or.inr (by decide))⟩

/-! ## Lemmas about the Loop Detector -/

/-- Claim C4: `areUrlsEffectivelySame` returns true exactly when both URLs
normalize (placeholder-host resolution, path only, trailing slashes
stripped, lower-cased) and the normalized paths are equal or equal up to
exactly one trailing slash on either side; and the check is symmetric. -/
theorem claim4_loop_detector_contract (a b : String) :
    (areUrlsEffectivelySame a b = true ↔
      ∃ pa pb, normalizeUrl a = some pa ∧ normalizeUrl b = some pb ∧
        (pa = pb ∨ pa ++ "/" = pb ∨ pa = pb ++ "/")) ∧
    areUrlsEffectivelySame a b = areUrlsEffectivelySame b a := by
  constructor
  · rw [areUrlsEffectivelySame]
    cases hA : normalizeUrl a <;> cases hB : normalizeUrl b <;>
      simp [hA, hB, Bool.or_eq_true, beq_iff_eq, or_assoc]
  · rw [areUrlsEffectivelySame, areUrlsEffectivelySame]
    cases hA : normalizeUrl a <;> cases hB : normalizeUrl b <;> simp
    rw [Bool.eq_iff_iff]
    simp only [Bool.or_eq_true, beq_iff_eq]
    constructor
    · rintro (h | h | h) <;> tauto
    · rintro (h | h | h) <;> tauto

/-! ## The identifier branch of the Matching Engine -/

/-- Claim C2: an old record whose non-empty identifier is in the
identifier index is resolved by that index entry alone — a flagged loop
records an `identical_urls` `LoopEntry` and nothing else, otherwise a
`sku_match` row with similarity "1.00" is emitted — and the outcome never
consults the name index. -/
theorem claim2_identifier_match_priority (cfg : Config) (ni ni' : NameIndex)
    (si : SkuIndex) (p np : Record)
    (hsku : p.sku ≠ "") (hlook : lookupBy si p.sku = some np) :
    (areUrlsEffectivelySame p.url np.url = true →
      processBatch cfg [p] ni si =
        ⟨[], [], [], [⟨p.url, np.url, "identical_urls", none, none, some p.sku⟩]⟩) ∧
    (areUrlsEffectivelySame p.url np.url = false →
      processBatch cfg [p] ni si =
        ⟨[⟨p.url, np.url, extractProductName cfg p.url, extractProductName cfg np.url,
          "sku_match", "1.00", some p.sku⟩], [], [], []⟩) ∧
    processRecord cfg ni si p = processRecord cfg ni' si p := by
  refine ⟨?_, ?_, ?_⟩
  · intro hloop
    simp [processBatch, processRecord, hsku, hlook, hloop, pushDisposition, emptyBatch]
  · intro hloop
    simp [processBatch, processRecord, hsku, hlook, hloop, pushDisposition, emptyBatch]
  · simp [processRecord, hsku, hlook]

/-- Witness for C2: the spec's first example scenario, identifier `123`. -/
theorem claim2_identifier_match_priority_witness :
    processBatch CONFIG [⟨"123", "/product/widget-5"⟩] []
        (buildSkuIndex [⟨"123", "/products/widget"⟩]) =
      ⟨[⟨"/product/widget-5", "/products/widget", "widget", "widget",
        "sku_match", "1.00", some "123"⟩], [], [], []⟩ := by
  have h := (claim2_identifier_match_priority CONFIG [] []
    (buildSkuIndex [⟨"123", "/products/widget"⟩])
    ⟨"123", "/product/widget-5"⟩ ⟨"123", "/products/widget"⟩
    (by decide) (by decide)).2.1 (by decide)
  exact h.trans (by decide)

/-! ## The fuzzy pass: stable descending sort and first-seen maxima -/


theorem insertSimDesc_head (x : ℚ × List Record) (s : List (ℚ × List Record)) :
    (insertSimDesc x s).head? = some
      (match s.head? with
        | none => x
        | some y => if x.1 ≥ y.1 then x else y) := by
  cases s with
  | nil => rfl
  | cons y ys =>
    rw [insertSimDesc]
    by_cases h : x.1 ≥ y.1 <;> simp [h]

/-- The head of the stable descending sort is the first-seen maximum. -/
theorem sortBySimDesc_head (l : List (ℚ × List Record)) :
    (sortBySimDesc l).head? = firstMaxBySim l := by
  induction l with
  | nil => rfl
  | cons x xs ih =>
    have hs : sortBySimDesc (x :: xs) = insertSimDesc x (sortBySimDesc xs) := rfl
    rw [hs, insertSimDesc_head, ih, firstMaxBySim]
    cases firstMaxBySim xs with
    | none => rfl
    | some y => by_cases h : x.1 ≥ y.1 <;> simp [h]

/-- Rewriting `fuzzyMatches` through the first-seen-maximum selection rule. -/
theorem fuzzyMatches_eq (cfg : Config) (ni : NameIndex) (name : String) :
    fuzzyMatches cfg ni name =
      ((firstMaxBySim (scoredCandidates cfg ni name)).map Prod.snd).getD [] := by
  rw [fuzzyMatches, ← sortBySimDesc_head]
  cases sortBySimDesc (scoredCandidates cfg ni name) <;> rfl

/-- Lemma: `firstMaxBySim` returns `none` exactly on the empty list. -/
theorem firstMaxBySim_eq_none (l : List (ℚ × List Record)) :
    firstMaxBySim l = none ↔ l = [] := by
  cases l with
  | nil => simp [firstMaxBySim]
  | cons x xs =>
    rw [firstMaxBySim]
    cases firstMaxBySim xs with
    | none => simp
    | some y => by_cases h : x.1 ≥ y.1 <;> simp [h]

/-- The chosen entry is a member of the list, it scores at least every
entry of the list, and every entry strictly before it scores strictly
below it (first seen wins). -/
theorem firstMaxBySim_spec (l : List (ℚ × List Record)) (x : ℚ × List Record)
    (h : firstMaxBySim l = some x) :
    x ∈ l ∧ (∀ y ∈ l, y.1 ≤ x.1) ∧
      ∃ l1 l2, l = l1 ++ x :: l2 ∧ ∀ y ∈ l1, y.1 < x.1 := by
  induction l generalizing x with
  | nil => simp [firstMaxBySim] at h
  | cons a xs ih =>
    rw [firstMaxBySim] at h
    cases hxs : firstMaxBySim xs with
    | none =>
      rw [hxs] at h
      have hx : a = x := by simpa using h
      have hempty : xs = [] := (firstMaxBySim_eq_none xs).mp hxs
      subst hx hempty
      exact ⟨List.mem_singleton_self a, by simp, [], [], by simp, by simp⟩
    | some y =>
      rw [hxs] at h
      have h' : (if a.1 ≥ y.1 then some a else some y) = some x := h
      by_cases hge : a.1 ≥ y.1
      · rw [if_pos hge] at h'
        have hx : a = x := by simpa using h'
        subst hx
        rcases ih y hxs with ⟨hmem, hmax, _⟩
        refine ⟨List.mem_cons_self a xs, ?_, [], xs, by simp, by simp⟩
        intro z hz
        rcases List.mem_cons.mp hz with hz | hz
        · exact le_of_eq (congrArg Prod.fst hz)
        · exact le_trans (hmax z hz) hge
      · rw [if_neg hge] at h'
        have hy : y = x := by simpa using h'
        subst hy
        rcases ih y hxs with ⟨hmem, hmax, l1, l2, hdec, hlt⟩
        refine ⟨List.mem_cons_of_mem a hmem, ?_, a :: l1, l2, by rw [hdec]; rfl, ?_⟩
        · intro z hz
          rcases List.mem_cons.mp hz with hz | hz
          · exact le_of_lt (by simpa [hz] using lt_of_not_ge hge)
          · exact hmax z hz
        · intro z hz
          rcases List.mem_cons.mp hz with hz | hz
          · simpa [hz] using lt_of_not_ge hge
          · exact hlt z hz

/-! ## The batch loop as a per-record disposition -/


theorem appendBatch_empty (a : BatchResult) : appendBatch a emptyBatch = a := by
  simp [appendBatch, emptyBatch]

theorem empty_appendBatch (a : BatchResult) : appendBatch emptyBatch a = a := by
  simp [appendBatch, emptyBatch]

theorem appendBatch_assoc (a b c : BatchResult) :
    appendBatch (appendBatch a b) c = appendBatch a (appendBatch b c) := by
  simp [appendBatch]

theorem pushDisposition_eq_append (acc : BatchResult) (d : Disposition) :
    pushDisposition acc d = appendBatch acc (pushDisposition emptyBatch d) := by
  cases d <;> simp [pushDisposition, appendBatch, emptyBatch]

/-- Folding the push loop from an arbitrary accumulator prepends it. -/
theorem foldl_push_acc (cfg : Config) (ni : NameIndex) (si : SkuIndex)
    (l : List Record) (acc : BatchResult) :
    l.foldl (fun a p => pushDisposition a (processRecord cfg ni si p)) acc
      = appendBatch acc (processBatch cfg l ni si) := by
  induction l generalizing acc with
  | nil => simp [processBatch, List.foldl_nil, appendBatch_empty]
  | cons p t ih =>
    rw [List.foldl_cons, ih (pushDisposition acc (processRecord cfg ni si p))]
    have h2 : processBatch cfg (p :: t) ni si
        = List.foldl (fun a q => pushDisposition a (processRecord cfg ni si q))
            (pushDisposition emptyBatch (processRecord cfg ni si p)) t := rfl
    rw [h2, ih (pushDisposition emptyBatch (processRecord cfg ni si p)),
      pushDisposition_eq_append acc, appendBatch_assoc]

/-- Lemma: `processBatch` splits over list concatenation. -/
theorem processBatch_append (cfg : Config) (ni : NameIndex) (si : SkuIndex)
    (l1 l2 : List Record) :
    processBatch cfg (l1 ++ l2) ni si
      = appendBatch (processBatch cfg l1 ni si) (processBatch cfg l2 ni si) := by
  have h1 : processBatch cfg (l1 ++ l2) ni si
      = List.foldl (fun a q => pushDisposition a (processRecord cfg ni si q))
          (processBatch cfg l1 ni si) l2 := by
    show (l1 ++ l2).foldl (fun a q => pushDisposition a (processRecord cfg ni si q))
      emptyBatch = _
    rw [List.foldl_append]
    rfl
  rw [h1, foldl_push_acc]

theorem processBatch_cons (cfg : Config) (ni : NameIndex) (si : SkuIndex)
    (p : Record) (t : List Record) :
    processBatch cfg (p :: t) ni si
      = appendBatch (pushDisposition emptyBatch (processRecord cfg ni si p))
          (processBatch cfg t ni si) := by
  have h2 : processBatch cfg (p :: t) ni si
      = List.foldl (fun a q => pushDisposition a (processRecord cfg ni si q))
          (pushDisposition emptyBatch (processRecord cfg ni si p)) t := rfl
  rw [h2, foldl_push_acc]

/-- Every output array of `processBatch` is the input-order selection of
the per-record dispositions. -/
theorem processBatch_eq_filterMap (cfg : Config) (ni : NameIndex) (si : SkuIndex)
    (l : List Record) :
    processBatch cfg l ni si =
      ⟨l.filterMap (fun p => dispMapped (processRecord cfg ni si p)),
        l.filterMap (fun p => dispUnmapped (processRecord cfg ni si p)),
        l.filterMap (fun p => dispCategorized (processRecord cfg ni si p)),
        l.filterMap (fun p => dispLoop (processRecord cfg ni si p))⟩ := by
  induction l with
  | nil => rfl
  | cons p t ih =>
    rw [processBatch_cons, ih]
    cases h : processRecord cfg ni si p <;>
      simp [h, pushDisposition, appendBatch, emptyBatch, List.filterMap_cons,
        dispMapped, dispUnmapped, dispCategorized, dispLoop]

/-- The four per-record selections plus the dropped records count the
whole input: each record contributes to exactly one of the five. -/
theorem disposition_count (cfg : Config) (ni : NameIndex) (si : SkuIndex)
    (l : List Record) :
    (l.filterMap (fun p => dispMapped (processRecord cfg ni si p))).length
      + (l.filterMap (fun p => dispUnmapped (processRecord cfg ni si p))).length
      + (l.filterMap (fun p => dispCategorized (processRecord cfg ni si p))).length
      + (l.filterMap (fun p => dispLoop (processRecord cfg ni si p))).length
      + l.countP (fun p => processRecord cfg ni si p = Disposition.dropped)
      = l.length := by
  induction l with
  | nil => rfl
  | cons p t ih =>
    cases h : processRecord cfg ni si p <;>
      simp [List.filterMap_cons, List.countP_cons, h, dispMapped, dispUnmapped,
        dispCategorized, dispLoop] at ih ⊢ <;> omega

/-- Claim C5: each record of a batch lands in exactly one of the five
dispositions — the four output arrays are the per-record selections in
input order, and their lengths plus the count of dropped records add up to
the batch length (so the dispositions are pairwise disjoint and cover the
input). -/
theorem claim5_partition_invariant (cfg : Config) (ni : NameIndex) (si : SkuIndex)
    (l : List Record) :
    processBatch cfg l ni si =
      ⟨l.filterMap (fun p => dispMapped (processRecord cfg ni si p)),
        l.filterMap (fun p => dispUnmapped (processRecord cfg ni si p)),
        l.filterMap (fun p => dispCategorized (processRecord cfg ni si p)),
        l.filterMap (fun p => dispLoop (processRecord cfg ni si p))⟩ ∧
    (processBatch cfg l ni si).mapping.length
      + (processBatch cfg l ni si).unmapped.length
      + (processBatch cfg l ni si).categoryMappings.length
      + (processBatch cfg l ni si).loopDetected.length
      + l.countP (fun p => processRecord cfg ni si p = Disposition.dropped)
      = l.length := by
  refine ⟨processBatch_eq_filterMap cfg ni si l, ?_⟩
  rw [processBatch_eq_filterMap cfg ni si l]
  exact disposition_count cfg ni si l

/-! ## Batch Coordinator -/

/-- Folding chunk results from an arbitrary accumulator prepends it. -/
theorem foldlBatch_acc_eq (cfg : Config) (ni : NameIndex) (si : SkuIndex)
    (chunks : List (List Record)) (acc : BatchResult) :
    chunks.foldl (fun a c => appendBatch a (processBatch cfg c ni si)) acc
      = appendBatch acc
          (chunks.foldl (fun a c => appendBatch a (processBatch cfg c ni si)) emptyBatch) := by
  induction chunks generalizing acc with
  | nil => simp [appendBatch_empty]
  | cons c t ih =>
    rw [List.foldl_cons, List.foldl_cons,
      ih (appendBatch acc (processBatch cfg c ni si)),
      ih (appendBatch emptyBatch (processBatch cfg c ni si)),
      empty_appendBatch, appendBatch_assoc]

/-- The chunking fuel is irrelevant as soon as it covers the length. -/
theorem chunkListAux_spec (b : Nat) (hb : 1 ≤ b) (fuel : Nat) :
    ∀ l : List Record, l.length ≤ fuel →
      ∀ (cfg : Config) (ni : NameIndex) (si : SkuIndex),
        (chunkListAux b fuel l).foldl
          (fun acc chunk => appendBatch acc (processBatch cfg chunk ni si)) emptyBatch
          = processBatch cfg l ni si := by
  induction fuel with
  | zero =>
    intro l hl cfg ni si
    have : l = [] := List.eq_nil_of_length_eq_zero (Nat.le_zero.mp hl)
    subst this
    rfl
  | succ n ih =>
    intro l hl cfg ni si
    cases l with
    | nil => rfl
    | cons p t =>
      rw [chunkListAux]
      rw [List.foldl_cons, empty_appendBatch]
      rw [foldlBatch_acc_eq]
      rw [ih ((p :: t).drop b) (by
        rw [List.length_drop]
        have : (p :: t).length = t.length + 1 := rfl
        omega) cfg ni si]
      rw [← processBatch_append, List.take_append_drop]

/-- Claim C8: processing in contiguous chunks of any size at least 1 and
concatenating the four output arrays chunkwise equals one whole-list run of
`processBatch`; in particular `generateURLMapping` computes exactly the
whole-list result over the indices it builds. -/
theorem claim8_batching_transparency (cfg : Config) (b : Nat) (l : List Record)
    (ni : NameIndex) (si : SkuIndex) (hb : 1 ≤ b) :
    batchedProcess cfg b l ni si = processBatch cfg l ni si ∧
    (1 ≤ cfg.batchSize → ∀ newURLs : List Record,
      generateURLMapping cfg l newURLs
        = processBatch cfg l (buildNameIndex cfg newURLs) (buildSkuIndex newURLs)) := by
  constructor
  · exact chunkListAux_spec b hb l.length l le_rfl cfg ni si
  · intro hb' newURLs
    exact chunkListAux_spec cfg.batchSize hb' l.length l le_rfl cfg
      (buildNameIndex cfg newURLs) (buildSkuIndex newURLs)

/-- Witness for C8: batch size 2 over three records against empty indices
matches the single-batch run. -/
theorem claim8_batching_transparency_witness :
    batchedProcess CONFIG 2
        [⟨"", "/product/a"⟩, ⟨"", "/product/b"⟩, ⟨"", "/product/c"⟩] [] []
      = processBatch CONFIG
          [⟨"", "/product/a"⟩, ⟨"", "/product/b"⟩, ⟨"", "/product/c"⟩] [] [] :=
  (claim8_batching_transparency CONFIG 2
    [⟨"", "/product/a"⟩, ⟨"", "/product/b"⟩, ⟨"", "/product/c"⟩] [] []
    (by decide)).1

/-! ## The name branch of the Matching Engine -/

/-- The `if p.sku = ""` guard together with the index miss. -/
theorem sku_guard_none (si : SkuIndex) (p : Record)
    (hsku : p.sku = "" ∨ lookupBy si p.sku = none) :
    (if p.sku = "" then none else lookupBy si p.sku) = none := by
  rcases hsku with h | h <;> simp [h]

/-- Claim C1: for a product-like record with no identifier match whose
non-empty extracted name misses the name index, the fuzzy pass scores the
name against every index key, keeps the strictly-above-threshold entries
(`scoredCandidates`), and selects the first entry attaining the maximal
score (`firstMaxBySim`, ties broken by index iteration order); the emitted
`MatchResult` is classified by the recomputed similarity against the
chosen record's extracted name via the exact / high / medium / low
if-chain. -/
theorem claim1_fuzzy_selection_and_classification (cfg : Config) (ni : NameIndex)
    (si : SkuIndex) (p : Record)
    (hsku : p.sku = "" ∨ lookupBy si p.sku = none)
    (hprod : cfg.productUrlPatterns.any (fun pat => containsSubstr p.url pat) = true)
    (hname : extractProductName cfg p.url ≠ "")
    (habsent : lookupBy ni (extractProductName cfg p.url) = none) :
    (firstMaxBySim (scoredCandidates cfg ni (extractProductName cfg p.url)) = none →
      processRecord cfg ni si p = .unmapped p.url) ∧
    (∀ s prods,
      firstMaxBySim (scoredCandidates cfg ni (extractProductName cfg p.url))
          = some (s, prods) →
      ((s, prods) ∈ scoredCandidates cfg ni (extractProductName cfg p.url) ∧
        (∀ y ∈ scoredCandidates cfg ni (extractProductName cfg p.url), y.1 ≤ s) ∧
        ∃ l1 l2,
          scoredCandidates cfg ni (extractProductName cfg p.url)
              = l1 ++ (s, prods) :: l2 ∧
          ∀ y ∈ l1, y.1 < s) ∧
      (prods = [] → processRecord cfg ni si p = .unmapped p.url) ∧
      (∀ best rest, prods = best :: rest →
        areUrlsEffectivelySame p.url best.url = false →
        processRecord cfg ni si p = .mapped ⟨p.url, best.url,
          extractProductName cfg p.url, extractProductName cfg best.url,
          classifySimilarity cfg (calculateNameSimilarity (extractProductName cfg p.url)
            (extractProductName cfg best.url)),
          toFixed2 (calculateNameSimilarity (extractProductName cfg p.url)
            (extractProductName cfg best.url)), none⟩)) ∧
    (∀ q : ℚ, classifySimilarity cfg q =
      if q = 1 then "exact_match"
      else if q ≥ cfg.highConfidenceThreshold then "high_confidence_match"
      else if q ≥ cfg.mediumConfidenceThreshold then "medium_confidence_match"
      else "low_confidence_match") := by
  have hsku' := sku_guard_none si p hsku
  refine ⟨?_, ?_, fun q => rfl⟩
  · intro hfm
    have hfuzzy : fuzzyMatches cfg ni (extractProductName cfg p.url) = [] := by
      rw [fuzzyMatches_eq, hfm]
      rfl
    simp [processRecord, nameBranch, hsku', hprod, hname, habsent, hfuzzy]
  · intro s prods hfm
    refine ⟨firstMaxBySim_spec _ _ hfm, ?_, ?_⟩
    · intro hempty
      have hfuzzy : fuzzyMatches cfg ni (extractProductName cfg p.url) = [] := by
        rw [fuzzyMatches_eq, hfm, hempty]
        rfl
      simp [processRecord, nameBranch, hsku', hprod, hname, habsent, hfuzzy]
    · intro best rest hcons hloop
      have hfuzzy : fuzzyMatches cfg ni (extractProductName cfg p.url) = best :: rest := by
        rw [fuzzyMatches_eq, hfm, hcons]
        rfl
      simp [processRecord, nameBranch, hsku', hprod, hname, habsent, hfuzzy, hloop]

/-- Witness for C1: `steel-box-red` misses the index and fuzzily matches
the `steel-box` key by the substring rule, emitting a high-confidence
match. -/
theorem claim1_fuzzy_selection_and_classification_witness :
    processRecord CONFIG
        [("steel-box", [⟨"", "/products/steel-box"⟩]), ("widget", [⟨"", "/products/widget"⟩])]
        [] ⟨"", "/product/steel-box-red"⟩
      = .mapped ⟨"/product/steel-box-red", "/products/steel-box", "steel-box-red",
          "steel-box", "high_confidence_match", "0.90", none⟩ := by
  have h := (claim1_fuzzy_selection_and_classification CONFIG
    [("steel-box", [⟨"", "/products/steel-box"⟩]), ("widget", [⟨"", "/products/widget"⟩])]
    [] ⟨"", "/product/steel-box-red"⟩
    (Or.inl rfl) (by decide) (by decide) (by decide)).2.1
    (mkRat 9 10) [⟨"", "/products/steel-box"⟩] (by decide)
  exact ((h.2.2 ⟨"", "/products/steel-box"⟩ [] rfl (by decide)).trans (by decide))

/-! ## URL-kind classification (claim C6) -/


/-- The category arm never pushes onto `mapping` or `unmapped`. -/
theorem categoryBranch_outcomes (cfg : Config) (url : String) :
    categoryBranch cfg url = .dropped ∨
      (∃ c, categoryBranch cfg url = .categorized c) ∨
      (∃ le, categoryBranch cfg url = .loop le) := by
  simp only [categoryBranch]
  split
  · exact Or.inl rfl
  · split
    · split
      · split
        · exact Or.inr (Or.inl ⟨_, rfl⟩)
        · split
          · exact Or.inr (Or.inr ⟨_, rfl⟩)
          · exact Or.inr (Or.inl ⟨_, rfl⟩)
      · exact Or.inr (Or.inl ⟨_, rfl⟩)
    · exact Or.inr (Or.inl ⟨_, rfl⟩)

/-- The name arm pushes onto `unmapped`, `mapping` or `loopDetected` only. -/
theorem nameBranch_outcomes (cfg : Config) (ni : NameIndex) (url : String) :
    nameBranch cfg ni url = .unmapped url ∨
      (∃ m, nameBranch cfg ni url = .mapped m) ∨
      (∃ le, nameBranch cfg ni url = .loop le) := by
  simp only [nameBranch]
  split
  · exact Or.inl rfl
  · split
    · exact Or.inl rfl
    · split
      · exact Or.inr (Or.inr ⟨_, rfl⟩)
      · exact Or.inr (Or.inl ⟨_, rfl⟩)

/-- Counterexample to claim C6 as stated: the URL `/blog?x=/product/y`
has path `/blog`, which contains no product and no category marker — the
claim then says the record produces no output at all — yet the engine
classifies it product-like (the marker sits in the query string of the
raw URL) and emits an `unmapped` entry. -/
theorem claim6_counterexample :
    pathContainsProductPattern CONFIG "/blog?x=/product/y" = false ∧
    pathContainsCategoryPattern CONFIG "/blog?x=/product/y" = false ∧
    processRecord CONFIG [] [] ⟨"", "/blog?x=/product/y"⟩
      = .unmapped "/blog?x=/product/y" := by
  refine ⟨by decide, by decide, by decide⟩

/-- Claim C6 as amended: for a record with no identifier match, the engine
classifies the URL by testing the configured markers against the RAW URL
string (query and host included), not the path: matching no marker set
drops the record silently; category-only URLs are routed to the category
arm, which only drops, categorizes or loop-flags; product-like URLs are
routed to the name arm. -/
theorem claim6_url_kind_routing (cfg : Config) (ni : NameIndex) (si : SkuIndex)
    (p : Record) (hsku : p.sku = "" ∨ lookupBy si p.sku = none) :
    (cfg.productUrlPatterns.any (fun pat => containsSubstr p.url pat) = false →
      cfg.categoryUrlPatterns.any (fun pat => containsSubstr p.url pat) = false →
      processRecord cfg ni si p = .dropped) ∧
    (cfg.productUrlPatterns.any (fun pat => containsSubstr p.url pat) = false →
      cfg.categoryUrlPatterns.any (fun pat => containsSubstr p.url pat) = true →
      processRecord cfg ni si p = categoryBranch cfg p.url ∧
      (categoryBranch cfg p.url = .dropped ∨
        (∃ c, categoryBranch cfg p.url = .categorized c) ∨
        (∃ le, categoryBranch cfg p.url = .loop le))) ∧
    (cfg.productUrlPatterns.any (fun pat => containsSubstr p.url pat) = true →
      processRecord cfg ni si p = nameBranch cfg ni p.url) := by
  have hsku' := sku_guard_none si p hsku
  refine ⟨?_, ?_, ?_⟩
  · intro h1 h2
    simp [processRecord, hsku', h1, h2]
  · intro h1 h2
    exact ⟨by simp [processRecord, hsku', h1, h2], categoryBranch_outcomes cfg p.url⟩
  · intro h1
    simp [processRecord, hsku', h1]

/-- Witness for the amended C6: a URL matching neither marker set is
silently dropped. -/
theorem claim6_url_kind_routing_witness :
    processRecord CONFIG [] [] ⟨"", "/other"⟩ = .dropped :=
  (claim6_url_kind_routing CONFIG [] [] ⟨"", "/other"⟩ (Or.inl rfl)).1
    (by decide) (by decide)

/-! ## Parse-failure handling (claim C9) -/

/-- Counterexample to claim C9 as stated: the record `("A", "http")` has
an unparseable URL (`new URL("http")` throws), yet because its identifier
matches the index it is emitted as a `sku_match` `MatchResult` (with empty
old name) — it is neither unmapped nor dropped. -/
theorem claim9_counterexample :
    urlPathname "http" = none ∧
    processRecord CONFIG [] (buildSkuIndex [⟨"A", "/products/x"⟩]) ⟨"A", "http"⟩
      = .mapped ⟨"http", "/products/x", "", "x", "sku_match", "1.00", some "A"⟩ := by
  refine ⟨by decide, by decide⟩

/-- Claim C9 as amended: a URL-parse failure is caught locally and never
fatal — extraction yields the empty name, the loop detector yields
`false` in either argument position, a record without an identifier match
is unmapped or dropped (one with an identifier match is still emitted as
`sku_match`), and the batch around the failing record is processed
exactly as the concatenation of its parts, so the other records are
unaffected. -/
theorem claim9_parse_failure_isolation (cfg : Config) (ni : NameIndex) (si : SkuIndex)
    (p : Record) (l1 l2 : List Record) (hfail : urlPathname p.url = none) :
    extractProductName cfg p.url = "" ∧
    (∀ u, areUrlsEffectivelySame p.url u = false ∧ areUrlsEffectivelySame u p.url = false) ∧
    ((p.sku = "" ∨ lookupBy si p.sku = none) →
      processRecord cfg ni si p = .unmapped p.url ∨ processRecord cfg ni si p = .dropped) ∧
    processBatch cfg (l1 ++ p :: l2) ni si
      = appendBatch (processBatch cfg l1 ni si)
          (appendBatch (processBatch cfg [p] ni si) (processBatch cfg l2 ni si)) := by
  refine ⟨?_, ?_, ?_, ?_⟩
  · simp [extractProductName, hfail]
  · intro u
    constructor
    · simp [areUrlsEffectivelySame, normalizeUrl, hfail]
    · rw [areUrlsEffectivelySame]
      rw [show normalizeUrl p.url = none from by simp [normalizeUrl, hfail]]
      cases normalizeUrl u <;> rfl
  · intro hsku
    have hsku' := sku_guard_none si p hsku
    by_cases hp : cfg.productUrlPatterns.any (fun pat => containsSubstr p.url pat) = true
    · left
      have hname : extractProductName cfg p.url = "" := by simp [extractProductName, hfail]
      simp [processRecord, nameBranch, hsku', hp, hname]
    · right
      have hp' : cfg.productUrlPatterns.any (fun pat => containsSubstr p.url pat) = false :=
        Bool.eq_false_iff.mpr hp
      by_cases hc : cfg.categoryUrlPatterns.any (fun pat => containsSubstr p.url pat) = true
      · have hcb : categoryBranch cfg p.url = .dropped := by simp [categoryBranch, hfail]
        simp [processRecord, hsku', hp', hc, hcb]
      · have hc' : cfg.categoryUrlPatterns.any (fun pat => containsSubstr p.url pat) = false :=
          Bool.eq_false_iff.mpr hc
        simp [processRecord, hsku', hp', hc']
  · rw [processBatch_append]
    congr 1
    rw [show p :: l2 = [p] ++ l2 from rfl, processBatch_append]

/-- Witness for the amended C9 at the unparseable URL `"http"` with no
identifier match. -/
theorem claim9_parse_failure_isolation_witness :
    extractProductName CONFIG "http" = "" ∧
    (processRecord CONFIG [] [] ⟨"", "http"⟩ = .unmapped "http" ∨
      processRecord CONFIG [] [] ⟨"", "http"⟩ = .dropped) := by
  have h := claim9_parse_failure_isolation CONFIG [] [] ⟨"", "http"⟩ [] [] (by decide)
  exact ⟨h.1, h.2.2.1 (Or.inl rfl)⟩

/-! ## Name normalization semantics (claim C7) -/


/-- The recursive one-pass replace of the source agrees with the
position-scan formulation of the leftmost-match deletion. -/
theorem replaceFirst_eq_removeFirstMatch (m : List Char → Option Nat) (l : List Char) :
    replaceFirst m l = removeFirstMatch m l := by
  induction l with
  | nil => rfl
  | cons c rest ih =>
    rw [replaceFirst, removeFirstMatch]
    cases hm : m (c :: rest) with
    | some n =>
      have h0 : (List.range (c :: rest).length).find?
          (fun i => (m ((c :: rest).drop i)).isSome) = some 0 := by
        rw [List.length_cons, List.range_succ_eq_map]
        exact List.find?_cons_of_pos _ (by simp [hm])
      rw [h0]
      simp [hm]
    | none =>
      have hshift : (List.range (c :: rest).length).find?
          (fun i => (m ((c :: rest).drop i)).isSome)
          = ((List.range rest.length).find?
              (fun i => (m (rest.drop i)).isSome)).map (· + 1) := by
        rw [List.length_cons, List.range_succ_eq_map]
        rw [List.find?_cons_of_neg _ (by simp [hm])]
        rw [List.find?_map]
        rfl
      rw [hshift]
      cases hfind : (List.range rest.length).find? (fun i => (m (rest.drop i)).isSome) with
      | none => simp [ih, removeFirstMatch, hfind]
      | some i =>
        simp [ih, removeFirstMatch, hfind, List.take_succ_cons, List.drop_succ_cons]

/-- Lemma: `cleanProductName` is the amended-claim normalization. -/
theorem cleanProductName_eq_spec (name : String) :
    cleanProductName name = specAmendedClean name := by
  rw [cleanProductName, specAmendedClean]
  by_cases h : name = "" <;> simp [h, replaceFirst_eq_removeFirstMatch]

/-- Counterexample to claim C7 as stated: in `/product/a-2x3-b` the
selected segment is `a-2x3-b`, whose only dimension spec is not a suffix —
the claimed normalization leaves it alone — yet the code deletes it
mid-name; and in `/product/foo-mil` the claimed normalization strips the
unit suffix without a number while the code requires the number and keeps
the name unchanged. -/
theorem claim7_counterexample :
    extractProductName CONFIG "/product/a-2x3-b" = "a-b" ∧
    selectProductSegment CONFIG "/product/a-2x3-b" = "a-2x3-b" ∧
    specCleanProductName "a-2x3-b" = "a-2x3-b" ∧
    extractProductName CONFIG "/product/foo-mil" = "foo-mil" ∧
    selectProductSegment CONFIG "/product/foo-mil" = "foo-mil" ∧
    specCleanProductName "foo-mil" = "foo" := by
  refine ⟨by decide, by decide, by decide, by decide, by decide, by decide⟩

/-- Claim C7 as amended: `extractProductName` returns the empty string on
parse failure, and otherwise the normalized selected segment, where the
normalization removes, in order and each at its first occurrence anywhere
in the name (not only as a suffix): a trailing lone digit, a
three-dimension spec, a two-dimension spec, each unit preceded by a
mandatory number with an optional hyphen, and finally trailing hyphens. -/
theorem claim7_name_extraction_amended (cfg : Config) (url : String) :
    (urlPathname url = none → extractProductName cfg url = "") ∧
    (∀ path, urlPathname url = some path →
      extractProductName cfg url = cleanProductName (selectProductSegment cfg path)) ∧
    (∀ name, cleanProductName name = specAmendedClean name) := by
  refine ⟨?_, ?_, cleanProductName_eq_spec⟩
  · intro h
    simp [extractProductName, h]
  · intro path h
    simp [extractProductName, h]

/-- Witness for the amended C7: the spec's dimension-stripping example. -/
theorem claim7_name_extraction_amended_witness :
    extractProductName CONFIG "/product/steel-box-24x18x12" = "steel-box" := by
  have h := (claim7_name_extraction_amended CONFIG "/product/steel-box-24x18x12").2.1
    "/product/steel-box-24x18x12" (by decide)
  exact h.trans (by decide)

/-! ## Name-index invariants and the threshold bound (claim C10) -/

theorem lookupBy_mem {α : Type} (l : List (String × α)) (key : String) (v : α)
    (h : lookupBy l key = some v) : (key, v) ∈ l := by
  induction l with
  | nil => cases h
  | cons kv rest ih =>
    obtain ⟨k, v'⟩ := kv
    rw [lookupBy] at h
    by_cases hk : k = key
    · rw [if_pos hk] at h
      cases Option.some.inj h
      subst hk
      exact List.mem_cons_self _ _
    · rw [if_neg hk] at h
      exact List.mem_cons_of_mem _ (ih h)

/-- Lemma: `insertName` preserves the index invariant: values are non-empty and
stored under their own extracted name. -/
theorem insertName_wf (cfg : Config) (ni : NameIndex) (k : String) (e : Record)
    (hwf : ∀ kv ∈ ni, kv.2 ≠ [] ∧ ∀ x ∈ kv.2, extractProductName cfg x.url = kv.1)
    (he : extractProductName cfg e.url = k) :
    ∀ kv ∈ insertName ni k e,
      kv.2 ≠ [] ∧ ∀ x ∈ kv.2, extractProductName cfg x.url = kv.1 := by
  induction ni with
  | nil =>
    intro kv hkv
    rw [insertName] at hkv
    rcases List.mem_singleton.mp hkv with rfl
    refine ⟨by simp, ?_⟩
    intro x hx
    rcases List.mem_singleton.mp hx with rfl
    exact he
  | cons kv' rest ih =>
    obtain ⟨k', es⟩ := kv'
    intro kv hkv
    rw [insertName] at hkv
    by_cases hk : k' = k
    · rw [if_pos hk] at hkv
      rcases List.mem_cons.mp hkv with h | h
      · subst h
        refine ⟨by simp, ?_⟩
        intro x hx
        rcases List.mem_append.mp hx with hx | hx
        · exact (hwf (k', es) (List.mem_cons_self _ _)).2 x hx
        · rcases List.mem_singleton.mp hx with rfl
          rw [he, hk]
      · exact hwf kv (List.mem_cons_of_mem _ h)
    · rw [if_neg hk] at hkv
      rcases List.mem_cons.mp hkv with h | h
      · subst h
        exact hwf _ (List.mem_cons_self _ _)
      · exact ih (fun kv h' => hwf kv (List.mem_cons_of_mem _ h')) kv h

/-- The name index built by `generateURLMapping` stores every record under
its own extracted name, in non-empty lists. -/
theorem buildNameIndex_wf (cfg : Config) (newURLs : List Record) :
    ∀ kv ∈ buildNameIndex cfg newURLs,
      kv.2 ≠ [] ∧ ∀ x ∈ kv.2, extractProductName cfg x.url = kv.1 := by
  suffices h : ∀ (l : List Record) (acc : NameIndex),
      (∀ kv ∈ acc, kv.2 ≠ [] ∧ ∀ x ∈ kv.2, extractProductName cfg x.url = kv.1) →
      ∀ kv ∈ l.foldl (fun idx e =>
          let productName := extractProductName cfg e.url
          if productName = "" then idx else insertName idx productName e) acc,
        kv.2 ≠ [] ∧ ∀ x ∈ kv.2, extractProductName cfg x.url = kv.1 by
    exact h newURLs [] (by simp)
  intro l
  induction l with
  | nil =>
    intro acc hacc
    simpa using hacc
  | cons e t ih =>
    intro acc hacc
    rw [List.foldl_cons]
    have hstep : (let productName := extractProductName cfg e.url
        if productName = "" then acc else insertName acc productName e)
      = (if extractProductName cfg e.url = "" then acc
          else insertName acc (extractProductName cfg e.url) e) := rfl
    rw [hstep]
    by_cases he : extractProductName cfg e.url = ""
    · rw [if_pos he]
      exact ih acc hacc
    · rw [if_neg he]
      exact ih _ (insertName_wf cfg acc _ e hacc rfl)

/-- The category arm never emits a `MatchResult`. -/
theorem categoryBranch_ne_mapped (cfg : Config) (url : String) (m : MatchResult) :
    categoryBranch cfg url ≠ .mapped m := by
  rcases categoryBranch_outcomes cfg url with h | ⟨c, h⟩ | ⟨le, h⟩ <;> simp [h]

/-- Inversion of a `MatchResult` emitted by the name arm: there is a
chosen record, reached by the exact hit or by the fuzzy pass, no loop was
flagged, and every field of the result is recomputed from the old name and
the chosen record's extracted name. -/
theorem nameBranch_mapped_inv (cfg : Config) (ni : NameIndex) (url : String)
    (m : MatchResult) (h : nameBranch cfg ni url = .mapped m) :
    ∃ best rest,
      extractProductName cfg url ≠ "" ∧
      ((lookupBy ni (extractProductName cfg url)).getD [] = best :: rest ∨
        (((lookupBy ni (extractProductName cfg url)).getD []).isEmpty = true ∧
          fuzzyMatches cfg ni (extractProductName cfg url) = best :: rest)) ∧
      areUrlsEffectivelySame url best.url = false ∧
      m = ⟨url, best.url, extractProductName cfg url, extractProductName cfg best.url,
        classifySimilarity cfg (calculateNameSimilarity (extractProductName cfg url)
          (extractProductName cfg best.url)),
        toFixed2 (calculateNameSimilarity (extractProductName cfg url)
          (extractProductName cfg best.url)), none⟩ := by
  simp only [nameBranch] at h
  split at h
  · cases h
  · rename_i hname
    split at h
    · cases h
    · rename_i best rest hbm
      split at h
      · cases h
      · rename_i hloop
        refine ⟨best, rest, hname, ?_, Bool.eq_false_iff.mpr hloop,
          (Disposition.mapped.inj h).symm⟩
        by_cases hemp : ((lookupBy ni (extractProductName cfg url)).getD []).isEmpty = true
        · rw [if_pos hemp] at hbm
          exact Or.inr ⟨hemp, hbm⟩
        · rw [if_neg hemp] at hbm
          exact Or.inl hbm

/-- Claim C10: with the name index built by `generateURLMapping` and a
similarity threshold below 1, every `MatchResult` of the name branch
carries a similarity formatted from a score strictly above the threshold —
an exact hit recomputes to 1, and a fuzzy hit recomputes to the very score
that beat the threshold, because the chosen record's extracted name is the
index key it was stored under — and its match type is the classification
of that same score. -/
theorem claim10_name_branch_threshold (cfg : Config) (newURLs : List Record)
    (si : SkuIndex) (p : Record) (m : MatchResult)
    (hth : cfg.similarityThreshold < 1)
    (hrec : processRecord cfg (buildNameIndex cfg newURLs) si p = .mapped m)
    (hnm : m.matchType ≠ "sku_match") :
    ∃ q : ℚ, m.similarity = toFixed2 q ∧ cfg.similarityThreshold < q ∧
      m.matchType = classifySimilarity cfg q := by
  have hnb : nameBranch cfg (buildNameIndex cfg newURLs) p.url = .mapped m := by
    simp only [processRecord] at hrec
    split at hrec
    · split at hrec
      · cases hrec
      · exact absurd (by rw [← Disposition.mapped.inj hrec]) hnm
    · split at hrec
      · split at hrec
        · exact absurd hrec (categoryBranch_ne_mapped cfg p.url m)
        · cases hrec
      · exact hrec
  obtain ⟨best, rest, hname, hbm, hloop, hm⟩ :=
    nameBranch_mapped_inv cfg (buildNameIndex cfg newURLs) p.url m hnb
  refine ⟨calculateNameSimilarity (extractProductName cfg p.url)
    (extractProductName cfg best.url), by rw [hm], ?_, by rw [hm]⟩
  rcases hbm with hex | ⟨hemp, hfz⟩
  · have hlook : lookupBy (buildNameIndex cfg newURLs) (extractProductName cfg p.url)
        = some (best :: rest) := by
      cases hl : lookupBy (buildNameIndex cfg newURLs) (extractProductName cfg p.url) with
      | none =>
        rw [hl] at hex
        cases hex
      | some es =>
        rw [hl] at hex
        rw [Option.getD_some] at hex
        rw [hex]
    have hwf := buildNameIndex_wf cfg newURLs _ (lookupBy_mem _ _ _ hlook)
    have hbest : extractProductName cfg best.url = extractProductName cfg p.url :=
      hwf.2 best (List.mem_cons_self _ _)
    rw [hbest, calculateNameSimilarity_self _ hname]
    exact hth
  · rw [fuzzyMatches_eq] at hfz
    cases hfm : firstMaxBySim (scoredCandidates cfg (buildNameIndex cfg newURLs)
        (extractProductName cfg p.url)) with
    | none =>
      rw [hfm] at hfz
      cases hfz
    | some top =>
      rw [hfm] at hfz
      simp only [Option.map_some', Option.getD_some] at hfz
      have hmem := (firstMaxBySim_spec _ _ hfm).1
      simp only [scoredCandidates] at hmem
      obtain ⟨kv, hkv, hf⟩ := List.mem_filterMap.mp hmem
      by_cases hgt : calculateNameSimilarity (extractProductName cfg p.url) kv.1
          > cfg.similarityThreshold
      · rw [if_pos hgt] at hf
        have htop := Option.some.inj hf
        have hwf := buildNameIndex_wf cfg newURLs kv hkv
        have hbest_mem : best ∈ kv.2 := by
          have h2 : kv.2 = best :: rest := by
            have hkv2 : kv.2 = top.2 := by rw [← htop]
            rw [hkv2, hfz]
          rw [h2]
          exact List.mem_cons_self _ _
        have hbest : extractProductName cfg best.url = kv.1 := hwf.2 best hbest_mem
        rw [hbest]
        exact hgt
      · rw [if_neg hgt] at hf
        cases hf

/-- Witness for C10 at the fuzzy high-confidence example. -/
theorem claim10_name_branch_threshold_witness :
    ∃ q : ℚ, "0.90" = toFixed2 q ∧ CONFIG.similarityThreshold < q ∧
      "high_confidence_match" = classifySimilarity CONFIG q := by
  have h := claim10_name_branch_threshold CONFIG [⟨"", "/products/steel-box"⟩] []
    ⟨"", "/product/steel-box-red"⟩
    ⟨"/product/steel-box-red", "/products/steel-box", "steel-box-red", "steel-box",
      "high_confidence_match", "0.90", none⟩
    (by decide) (by decide) (by decide)
  simpa using h

end UrlMapper
